import Mathlib

/-!
Verification of the query/match/merge core of bibtex-autocomplete
(src/bibtexautocomplete: bibtex.py, lookup.py, autocomplete.py).

The Python code is shallowly embedded: Python strings are lists of
characters (so that the exact splitting and stripping semantics of the
source can be stated and proved), BibTeX entries are association lists
from field names to string values, and fallible Python code (attribute
access, dict and list indexing, exceptions) is embedded in `Except PyErr`.
External collaborators (the HTTP stack, the JSON decoder, the concrete
API adapters) are parameters of the corresponding definitions.
-/

/-- Modelled Python exceptions raised by the embedded code. -/
inductive PyErr where
  | attributeError
  | nameError
  | keyError
  | indexError
  | typeError
  | runtimeError
  | unicodeDecodeError
  deriving DecidableEq

/-! ## Python string primitives

Python `str` values are embedded as `List Char`; the helpers below embed
the string methods used by the source (`strip`, `split`, `replace`,
`join`). -/

/-- The ASCII whitespace characters recognised by Python `str.strip` and
`str.split()` (the source only manipulates ASCII whitespace). -/
def pyIsSpace (c : Char) : Bool :=
  c = ' ' || c = '\t' || c = '\n' || c = '\x0d' || c = '\x0b' || c = '\x0c'

/-- Python `s.strip()`: drop leading and trailing whitespace. -/
def pyStrip (s : List Char) : List Char :=
  ((s.dropWhile pyIsSpace).reverse.dropWhile pyIsSpace).reverse

/-- Helper for `pyWords`: accumulates the current word (reversed). -/
def pyWordsAux : List Char → List Char → List (List Char)
  | [], acc => if acc.isEmpty then [] else [acc.reverse]
  | c :: rest, acc =>
    if pyIsSpace c then
      if acc.isEmpty then pyWordsAux rest [] else acc.reverse :: pyWordsAux rest []
    else pyWordsAux rest (c :: acc)

/-- Python `s.split()` (no separator): split on whitespace runs, dropping
empty pieces. -/
def pyWords (s : List Char) : List (List Char) := pyWordsAux s []

/-- Index of the first occurrence of `sep` in `s`, scanning left to right. -/
def firstOcc (sep : List Char) : List Char → Option Nat
  | [] => if sep.isEmpty then some 0 else none
  | c :: rest =>
    if sep.isPrefixOf (c :: rest) then some 0
    else (firstOcc sep rest).map (· + 1)

/-- Fuelled worker for `pySplit`; `fuel` at least the length of the string
makes it total and faithful. -/
def pySplitAux (sep : List Char) : Nat → List Char → List (List Char)
  | 0, s => [s]
  | fuel + 1, s =>
    match firstOcc sep s with
    | none => [s]
    | some i => s.take i :: pySplitAux sep fuel (s.drop (i + sep.length))

/-- Python `s.split(sep)` for a non-empty separator `sep`. -/
def pySplit (sep s : List Char) : List (List Char) :=
  pySplitAux sep s.length s

/-- Python `s.split(sep, 1)` for a single-character separator known to
occur in `s`: the pieces before and after its first occurrence. -/
def pySplitOnce (sep : Char) (s : List Char) : List Char × List Char :=
  match firstOcc [sep] s with
  | none => (s, [])
  | some i => (s.take i, s.drop (i + 1))

/-- Python `s.replace(old, new)` where `old` is one character. -/
def pyReplaceChar (old : Char) (new : List Char) (s : List Char) : List Char :=
  s.flatMap fun c => if c = old then new else [c]

/-- Python `sep.join(pieces)`. -/
def pyJoin (sep : List Char) (pieces : List (List Char)) : List Char :=
  List.intercalate sep pieces

/-- Python list indexing `l[i]`, raising `IndexError` when out of range. -/
def listGet (l : List α) (i : Nat) : Except PyErr α :=
  match l.get? i with
  | some x => Except.ok x
  | none => Except.error PyErr.indexError

/-! ## BibTeX entries (bibtex.py)

An entry is the field map of a `bibtexparser` entry: an association list
from field names to raw string values. -/

/-- A BibTeX entry: association list from field names to values. -/
abbrev Entry := List (String × String)

/-- Python `field in entry` / `entry.get(field)`: the value stored under
`field`, if any. -/
def getField (e : Entry) (f : String) : Option String :=
  (e.find? (fun p => p.1 = f)).map (fun p => p.2)

/-- Python `entry[field]`: raises `KeyError` when the field is absent. -/
def getItem (e : Entry) (f : String) : Except PyErr String :=
  match getField e f with
  | some v => Except.ok v
  | none => Except.error PyErr.keyError

/-- Python `entry[field] = value`: replace the stored value, appending the
pair when the field is new. -/
def setField (e : Entry) (f v : String) : Entry :=
  if (e.find? (fun p => p.1 = f)).isSome then
    e.map (fun p => if p.1 = f then (p.1, v) else p)
  else e ++ [(f, v)]

/-- `has_field` from bibtex.py: the entry has a non-empty value for the
field. -/
def has_field (e : Entry) (f : String) : Bool :=
  match getField e f with
  | some v => v ≠ ""
  | none => false

/-! ## Author parsing (bibtex.py `get_authors` over bibtexparser `getnames`)

`get_authors` delegates name normalisation to
`bibtexparser.customization.getnames` (the v1 dependency of this code,
not part of the repository); `getnames` is embedded below following that
library: each name is stripped, empty names are skipped, a name is split
into a last name and first-name words (at the first comma, or at the last
whitespace word), bare junior markers pop a first name (an `IndexError`
when there is none), particles such as `van` move words from the first
names into the last name through an index loop that pops from the end of
the list it iterates, and the result is rendered as `last, firsts`. -/

/-- `Author` from bibtex.py. `get_authors` always passes both components
as strings (the optional first names are never `None` in practice). -/
structure Author where
  lastname : String
  firstnames : String
  deriving DecidableEq

/-- The junior markers recognised by `getnames`. -/
def jrWords : List (List Char) := ["jnr".data, "jr".data, "junior".data]

/-- The name particles recognised by `getnames`. -/
def vanWords : List (List Char) :=
  ["ben".data, "van".data, "der".data, "de".data, "la".data, "le".data]

/-- The particle loop of `getnames`: `for item in firsts: if item in
[...]: last = firsts.pop() + ' ' + last`. CPython iterates by index over
the list being mutated, and `pop()` removes the final element, so the
loop is embedded with an explicit index `i`; the fuel is at least the
initial list length, which bounds the number of iterations. -/
def vanLoop : Nat → List (List Char) → List Char → Nat → List (List Char) × List Char
  | 0, firsts, last, _ => (firsts, last)
  | fuel + 1, firsts, last, i =>
    match firsts.get? i with
    | none => (firsts, last)
    | some item =>
      if item ∈ vanWords then
        match firsts.getLast? with
        | none => (firsts, last)
        | some popped => vanLoop fuel firsts.dropLast (popped ++ ' ' :: last) (i + 1)
      else vanLoop fuel firsts last (i + 1)

/-- The junior-marker step then the particle loop then rendering as
`last ++ ", " ++ " ".join(firsts)`. -/
def finishName (last : List Char) (firsts : List (List Char)) :
    Except PyErr (List Char) := do
  let (last, firsts) ←
    if last ∈ jrWords then
      match firsts.getLast? with
      | none => Except.error PyErr.indexError
      | some popped => Except.ok (popped, firsts.dropLast)
    else Except.ok (last, firsts)
  let (firsts, last) := vanLoop firsts.length firsts last 0
  Except.ok (last ++ ',' :: ' ' :: pyJoin [' '] firsts)

/-- One iteration of the `getnames` loop: `none` when the stripped name is
empty (the `continue` branch), otherwise the rendered name. -/
def getnamesOne (namestring : List Char) : Except PyErr (Option (List Char)) :=
  let t := pyStrip namestring
  if t.length < 1 then Except.ok none
  else if ',' ∈ t then
    let ns := pySplitOnce ',' t
    let last := pyStrip ns.1
    let firsts := (pyWords ns.2).map pyStrip
    (finishName last firsts).map some
  else
    let ns := pyWords t
    match ns.getLast? with
    | none => Except.error PyErr.indexError
    | some last =>
      let firsts := ns.dropLast.map (fun w => pyStrip (pyReplaceChar '.' ['.', ' '] w))
      (finishName last firsts).map some

/-- `getnames` over a list of names, skipping empty ones. -/
def getnames : List (List Char) → Except PyErr (List (List Char))
  | [] => Except.ok []
  | n :: rest => do
    let hd ← getnamesOne n
    let tl ← getnames rest
    match hd with
    | none => Except.ok tl
    | some v => Except.ok (v :: tl)

/-- The formatting loop of `get_authors`: build an `Author` from the
pieces of each normalised name around `", "` (list indices 0 and 1, which
raise `IndexError` when absent). -/
def buildAuthors : List (List Char) → Except PyErr (List Author)
  | [] => Except.ok []
  | name :: rest => do
    let split := pySplit (',' :: ' ' :: []) name
    let last ← listGet split 0
    let first ← listGet split 1
    let tl ← buildAuthors rest
    Except.ok (Author.mk (String.mk last) (String.mk first) :: tl)

/-- `get_authors` from bibtex.py: split the author field on `" and "`
(after turning newlines into spaces), strip each name, normalise through
`getnames`, and format each result as an `Author`. -/
def get_authors (author : String) : Except PyErr (List Author) := do
  let authors :=
    (pySplit " and ".data (pyReplaceChar '\n' [' '] author.data)).map pyStrip
  let names ← getnames authors
  buildAuthors names

/-- The exact condition under which `getnamesOne` raises: the stripped
name is non-empty and either reduces to a bare junior marker with no
first names, or (in the branch without a comma) has no whitespace words
at all. Used to state when `get_authors` is exception-free. -/
def bareJr (s : List Char) : Bool :=
  let t := pyStrip s
  if t.length < 1 then false
  else if ',' ∈ t then
    decide (pyStrip (pySplitOnce ',' t).1 ∈ jrWords) &&
      (pyWords (pySplitOnce ',' t).2).isEmpty
  else
    match pyWords t with
    | [] => true
    | [w] => decide (w ∈ jrWords)
    | _ => false

/-! ## The multiple-query lookup (lookup.py `AbstractMultipleLookup.query`)

The class declares `author: Optional[str]` and `title: Optional[str]` as
bare annotations, so a fresh instance has neither attribute until `query`
assigns them: reading one before that raises `AttributeError`. The local
variable `authors` is only bound when the entry has an `author` field;
reading it otherwise raises `NameError` (Python `UnboundLocalError`).
`lookup()` itself is HTTP plus adapter code; it is abstracted as a pure
oracle `lk` from the current `self.title`/`self.author` attribute values
to an optional result (an unset attribute is passed as `none`; the
abstract base class reads neither attribute). `query` is embedded to
return the ordered list of attribute states at each `lookup()` call
together with the final result. -/

/-- Reading a Python attribute that may not have been assigned. -/
def readAttr (a : Option α) : Except PyErr α :=
  match a with
  | some v => Except.ok v
  | none => Except.error PyErr.attributeError

/-- `author_join` class attribute. -/
def author_join : String := " "

/-- `max_search_queries` class attribute (politeness cap). -/
def max_search_queries : Nat := 10

/-- The outcome of `AbstractMultipleLookup.query`: the `(title, author)`
attribute state at each `lookup()` call, in order, and the returned
value. -/
structure QueryRes where
  calls : List (Option String × Option String)
  result : Option String
  deriving DecidableEq

/-- The single-author loop of `query` (lines 178-186): set `self.author`
to each author in turn, stop at the first hit or once the counter passes
`max_search_queries`. -/
def phase2loop (lk : Option String → Option String → Option String)
    (title : Option String) :
    List Author → Nat → List (Option String × Option String) × Option String
  | [], _ => ([], none)
  | a :: rest, queries =>
    let call := (title, some a.lastname)
    match lk title (some a.lastname) with
    | some v => ([call], some v)
    | none =>
      if queries + 1 > max_search_queries then ([call], none)
      else
        let (cs, res) := phase2loop lk title rest (queries + 1)
        (call :: cs, res)

/-- `AbstractMultipleLookup.query` (lookup.py lines 161-193), embedded
statement by statement. -/
def query (lk : Option String → Option String → Option String)
    (entry : Entry) : Except PyErr QueryRes := do
  let titleAttr : Option (Option String) ←
    if has_field entry "title" then do
      let pt ← getItem entry "plain_title"
      Except.ok (some (some (String.mk (pyStrip pt.data))))
    else Except.ok none
  let state ←
    if has_field entry "author" then do
      let pa ← getItem entry "plain_author"
      let authors ← get_authors pa
      Except.ok (some authors,
        some (some (String.intercalate author_join (authors.map Author.lastname))))
    else Except.ok ((none : Option (List Author)), (none : Option (Option String)))
  let authorsLocal := state.1
  let authorAttr := state.2
  let tval ← readAttr titleAttr
  let noData ←
    if tval = none then do
      let aval ← readAttr authorAttr
      Except.ok (decide (aval = none))
    else Except.ok false
  if noData then Except.ok (QueryRes.mk [] none)
  else
    let aval0 : Option String := match authorAttr with | some v => v | none => none
    let call1 := (tval, aval0)
    match lk tval aval0 with
    | some v => Except.ok (QueryRes.mk [call1] (some v))
    | none => do
      let authors ← match authorsLocal with
        | some a => Except.ok a
        | none => Except.error PyErr.nameError
      let res2 := if authors.length > 1 then phase2loop lk tval authors 1 else ([], none)
      let cs2 := res2.1
      match res2.2 with
      | some v => Except.ok (QueryRes.mk (call1 :: cs2) (some v))
      | none => do
        let tval2 ← readAttr titleAttr
        if tval2.isSome then
          Except.ok (QueryRes.mk (call1 :: cs2 ++ [(tval, none)]) (lk tval none))
        else Except.ok (QueryRes.mk (call1 :: cs2) none)

/-- First-success run of an oracle along a list of call states: the calls
made (all states up to and including the first hit) and the result. Used
to state what `query` does on well-formed entries. -/
def runSeq (lk : Option String → Option String → Option String) :
    List (Option String × Option String) →
    List (Option String × Option String) × Option String
  | [] => ([], none)
  | c :: cs =>
    match lk c.1 c.2 with
    | some v => ([c], some v)
    | none =>
      let (cs2, res) := runSeq lk cs
      (c :: cs2, res)

/-- The fixed query-shape sequence of `AbstractMultipleLookup.query` for a
title `t` and parsed author list `auths`: all authors plus title, then
(when there are at least two authors) each of the first
`max_search_queries` single authors plus title, then title only. -/
def querySeq (t : String) (auths : List Author) :
    List (Option String × Option String) :=
  (some t, some (String.intercalate author_join (auths.map Author.lastname))) ::
    (if auths.length > 1 then
      (auths.take max_search_queries).map (fun a => (some t, some a.lastname))
    else []) ++ [(some t, none)]

/-! ## The search lookup (lookup.py `AbstractSearchLookup.handle_output`)

A raw API record is abstracted by its two projections `get_title` and
`get_value` (adapter-specific), so a record is embedded as the pair of
those two optional strings. The similarity predicate `str_similar` lives
in defs.py, which is not part of the sources; `handle_output` is
therefore parameterised by it. -/

/-- A record as seen by `AbstractSearchLookup`: its `get_title` and
`get_value` projections. -/
abbrev SearchRec := Option String × Option String

/-- The body of the result loop of `handle_output` (lines 229-237): a
record contributes its value when its title is present, similar to the
plain title of the entry, and its value is present; otherwise the loop
continues. -/
def recHit (sim : String → String → Bool) (plainTitle : String)
    (r : SearchRec) : Option String :=
  match r.1 with
  | none => none
  | some title => if sim title plainTitle then r.2 else none

/-- The result loop of `handle_output`: return at the first record whose
title is similar and whose value is present. -/
def searchLoop (sim : String → String → Bool) (plainTitle : String) :
    List SearchRec → Option String
  | [] => none
  | r :: rest =>
    match recHit sim plainTitle r with
    | some v => some v
    | none => searchLoop sim plainTitle rest

/-- `AbstractSearchLookup.handle_output` (lookup.py lines 224-237) on the
outcome of `get_results`: `None` results give `None`, otherwise the first
similar record with a value wins. -/
def handle_output (sim : String → String → Bool) (plainTitle : String) :
    Option (List SearchRec) → Option String
  | none => none
  | some results => searchLoop sim plainTitle results

/-! ## The JSON search lookup (lookup.py `AbstractJSONSearchLookup`)

`get_results` first decodes the body as UTF-8 (`data.decode()`), then
parses JSON; only `JSONDecodeError` is caught, so a body that is not
valid UTF-8 raises an uncaught `UnicodeDecodeError`. The JSON parser and
the adapter-specific `get_results_json` are parameters; bytes are natural
numbers below 256. -/

/-- Fuelled UTF-8 decoder for Python `bytes.decode()`: `none` on invalid
UTF-8 (continuation errors, truncation, overlong forms, surrogates,
out-of-range code points). -/
def utf8DecodeAux : Nat → List Nat → Option (List Char)
  | _, [] => some []
  | 0, _ :: _ => none
  | fuel + 1, b :: rest =>
    if b < 0x80 then
      (utf8DecodeAux fuel rest).map (fun cs => Char.ofNat b :: cs)
    else if b < 0xC2 then none
    else if b < 0xE0 then
      match rest with
      | b2 :: rest2 =>
        if 0x80 ≤ b2 && b2 < 0xC0 then
          (utf8DecodeAux fuel rest2).map
            (fun cs => Char.ofNat ((b - 0xC0) * 64 + (b2 - 0x80)) :: cs)
        else none
      | [] => none
    else if b < 0xF0 then
      match rest with
      | b2 :: b3 :: rest3 =>
        if (0x80 ≤ b2 && b2 < 0xC0) && (0x80 ≤ b3 && b3 < 0xC0)
            && !(b = 0xE0 && b2 < 0xA0) && !(b = 0xED && 0xA0 ≤ b2) then
          (utf8DecodeAux fuel rest3).map
            (fun cs =>
              Char.ofNat ((b - 0xE0) * 4096 + (b2 - 0x80) * 64 + (b3 - 0x80)) :: cs)
        else none
      | _ => none
    else if b < 0xF5 then
      match rest with
      | b2 :: b3 :: b4 :: rest4 =>
        if (0x80 ≤ b2 && b2 < 0xC0) && (0x80 ≤ b3 && b3 < 0xC0)
            && (0x80 ≤ b4 && b4 < 0xC0)
            && !(b = 0xF0 && b2 < 0x90) && !(b = 0xF4 && 0x90 ≤ b2) then
          (utf8DecodeAux fuel rest4).map
            (fun cs =>
              Char.ofNat ((b - 0xF0) * 262144 + (b2 - 0x80) * 4096
                + (b3 - 0x80) * 64 + (b4 - 0x80)) :: cs)
        else none
      | _ => none
    else none

/-- Python `bytes.decode()` over a byte list. -/
def utf8Decode (data : List Nat) : Option (List Char) :=
  utf8DecodeAux data.length data

/-- `AbstractJSONSearchLookup.get_results` (lookup.py lines 247-252):
decode the body as UTF-8 (an uncaught `UnicodeDecodeError` when invalid),
parse JSON (`JSONDecodeError` is caught and yields `None`), and hand the
decoded document to the adapter-specific `get_results_json`. -/
def get_resultsJSON (jsonParse : List Char → Option J)
    (get_results_json : J → Option (List SearchRec)) (data : List Nat) :
    Except PyErr (Option (List SearchRec)) :=
  match utf8Decode data with
  | none => Except.error PyErr.unicodeDecodeError
  | some s =>
    match jsonParse s with
    | none => Except.ok none
    | some doc => Except.ok (get_results_json doc)

/-- `handle_output` of a JSON search lookup: `get_results` then the search
loop. -/
def handle_outputJSON (sim : String → String → Bool) (plainTitle : String)
    (jsonParse : List Char → Option J)
    (get_results_json : J → Option (List SearchRec)) (data : List Nat) :
    Except PyErr (Option String) :=
  (get_resultsJSON jsonParse get_results_json data).map
    (handle_output sim plainTitle)

/-! ## The base lookup (lookup.py `AbstractBaseLookup.lookup`)

Only the response handling matters to the claims: the network outcome is
a parameter (timeout, DNS failure, or a response with a status code and a
body), and the embedding records whether the body was read. -/

/-- Outcome of the HTTPS request of `lookup`. -/
inductive NetOutcome where
  | timeout
  | gaierror
  | response (status : Nat) (body : List Nat)

/-- `AbstractBaseLookup.lookup` (lookup.py lines 95-126): timeouts and
connection errors give `None`; a response with a status other than 200 is
dropped without reading the body; otherwise the body is read and passed
to `handle_output`. The boolean records whether the body was read. -/
def lookupBase (net : NetOutcome)
    (handleOut : List Nat → Except PyErr (Option String)) :
    Except PyErr (Option String) × Bool :=
  match net with
  | NetOutcome.timeout => (Except.ok none, false)
  | NetOutcome.gaierror => (Except.ok none, false)
  | NetOutcome.response status body =>
    if status ≠ 200 then (Except.ok none, false)
    else (handleOut body, true)

/-! ## Writing a database (bibtex.py `write`)

`write` strips the `plain_` fields of every entry and serialises the
database with a `BibTexWriter` configured with
`order_entries_by = ("author", "year", "title")`. The bibtexparser writer
(an external collaborator) sorts the entries by the tuple of those field
values (missing fields sort as the empty string, Python tuple and string
comparison, stable sort); serialisation to text is out of scope, so the
embedding returns the ordered entry sequence that is written out. -/

/-- `PLAIN_PREFIX` from bibtex.py. -/
def PLAIN_PREFIX : String := "plain_"

/-- `remove_plain_fields` from bibtex.py: delete every field whose name
starts with `plain_`. -/
def remove_plain_fields (e : Entry) : Entry :=
  e.filter (fun p => !(PLAIN_PREFIX.data.isPrefixOf p.1.data))

/-- Python string comparison: lexicographic on code points. -/
def strLe : List Char → List Char → Bool
  | [], _ => true
  | _ :: _, [] => false
  | a :: as, b :: bs =>
    if a.toNat < b.toNat then true
    else if b.toNat < a.toNat then false
    else strLe as bs

/-- The sort key of the configured writer: the values of `author`, `year`
and `title` (empty when missing), as in
`tuple(x.get(field, "") for field in order_entries_by)`. -/
def entryKey (e : Entry) : List Char × List Char × List Char :=
  (((getField e "author").getD "").data, ((getField e "year").getD "").data,
    ((getField e "title").getD "").data)

/-- Python tuple comparison of writer sort keys (lexicographic with
string comparison componentwise). -/
def keyLe (x y : Entry) : Bool :=
  if (entryKey x).1 = (entryKey y).1 then
    if (entryKey x).2.1 = (entryKey y).2.1 then strLe (entryKey x).2.2 (entryKey y).2.2
    else strLe (entryKey x).2.1 (entryKey y).2.1
  else strLe (entryKey x).1 (entryKey y).1

/-- Writer entry order as a relation. -/
def writerLE (x y : Entry) : Prop := keyLe x y = true

instance : DecidableRel writerLE := fun x y =>
  inferInstanceAs (Decidable (keyLe x y = true))

/-- `write` from bibtex.py (lines 34-38), as the sequence of entries the
writer emits: `plain_` fields removed, then the stable sort by
`(author, year, title)` performed by the configured writer. -/
def write (db : List Entry) : List Entry :=
  List.insertionSort writerLE (db.map remove_plain_fields)

/-! ## Specification-side definitions for the search layer

`str_similar` is imported from defs.py, which is not among the sources;
it is modelled from the spec. The spec also prescribes a different
candidate selection (best scoring, not first similar); that prescription
is embedded separately to compare with `handle_output`. -/

/-- Modelled from the spec: `normalize_str` from defs.py (not under src).
Lowercase, drop every character outside lowercase letters, digits and
space, collapse whitespace runs and trim (diacritic folding is identity
on the ASCII inputs considered here). -/
def normalize_str (s : String) : String :=
  String.mk (pyJoin [' ']
    (pyWords ((s.data.map Char.toLower).filter
      (fun c => ('a' ≤ c && c ≤ 'z') || ('0' ≤ c && c ≤ '9') || c = ' '))))

/-- Modelled from the spec: the title similarity of the strict string
field kind, used for `str_similar` from defs.py (not under src): equal
normalised forms, or one a substring of the other with at least an 80
percent length ratio. -/
def str_similar (a b : String) : Bool :=
  let na := (normalize_str a).data
  let nb := (normalize_str b).data
  na = nb ||
    (((firstOcc na nb).isSome || (firstOcc nb na).isSome) &&
      min na.length nb.length * 5 ≥ max na.length nb.length * 4)

/-- Modelled from the spec: the title score of a candidate record against
the local title; equal normalised titles score 2 (certain), a substring
with at least an 80 percent length ratio scores 1 (partial), anything
else 0 (no match). -/
def specTitleScore (a b : String) : Nat :=
  let na := (normalize_str a).data
  let nb := (normalize_str b).data
  if na = nb then 2
  else if ((firstOcc na nb).isSome || (firstOcc nb na).isSome) &&
      min na.length nb.length * 5 ≥ max na.length nb.length * 4 then 1
  else 0

/-- Modelled from the spec: the selection rule the specification states
for the search lookup, namely the value of the best-scoring candidate
whose score reaches the accept threshold (score at least 1), earliest
candidate on ties. -/
def specBestSelect (plainTitle : String) (rs : List SearchRec) : Option String :=
  let scored := rs.filterMap fun r =>
    match r.1, r.2 with
    | some t, some v =>
      if specTitleScore t plainTitle ≥ 1 then some (specTitleScore t plainTitle, v)
      else none
    | _, _ => none
  (scored.foldl
    (fun best p =>
      match best with
      | none => some p
      | some q => if p.1 > q.1 then some p else some q)
    none).map (fun p => p.2)

/-! ## The dispatcher (autocomplete.py)

`BibtexAutocomplete` holds a list of databases (each a list of entries).
Its generator `iter_entries` ends with an explicit `raise
StopIteration()`; inside a generator Python (PEP 479, Python 3.7 and
later) converts that into a `RuntimeError`, so exhausting the iterator
raises. The embedding of the generator returns the full yield trace
together with the terminal outcome. -/

/-- `get_entries` from bibtex.py: the entries of a database. -/
def get_entries (db : List Entry) : List Entry := db

/-- `BibtexAutocomplete.iter_entries` (autocomplete.py lines 33-38): the
sequence of yielded entries and the terminal outcome of the generator,
which is always the `RuntimeError` that PEP 479 makes of the trailing
`raise StopIteration()`. -/
def iter_entries : List (List Entry) → List Entry × Option PyErr
  | [] => ([], some PyErr.runtimeError)
  | db :: rest =>
    let t := iter_entries rest
    (get_entries db ++ t.1, t.2)

/-- `BibtexAutocomplete.count_missing` (autocomplete.py lines 49-55): a
`for` loop over `iter_entries`, counting entries without the field; the
count is lost when the generator raises at exhaustion. -/
def count_missing (dbs : List (List Entry)) (field : String) : Except PyErr Nat :=
  let t := iter_entries dbs
  match t.2 with
  | some err => Except.error err
  | none => Except.ok ((t.1.filter (fun e => !(has_field e field))).length)

/-- The body of `BibtexAutocomplete.count_entries` (autocomplete.py lines
41-47): sum the entry counts of the databases. -/
def count_entries_body (dbs : List (List Entry)) : Nat :=
  dbs.foldl (fun count db => count + (get_entries db).length) 0

/-- `memoize` from autocomplete.py (lines 11-18): it defines `decorator`
(which defines `helper` but has no `return` statement) and itself has no
`return` statement either, so evaluating `memoize(attr_name)` returns
`None` instead of a decorator. -/
def memoize (_attrName : String) :
    Option ((List (List Entry) → Nat) → Option (List (List Entry) → Nat)) :=
  none

/-- Python call of a possibly-`None` callable: calling `None` raises
`TypeError`. -/
def pyCall {α β : Type} (f : Option (α → β)) (x : α) : Except PyErr β :=
  match f with
  | none => Except.error PyErr.typeError
  | some g => Except.ok (g x)

/-- The decoration `@memoize("_total")` applied to the body of
`count_entries` when the class body of `BibtexAutocomplete` is executed:
`memoize("_total")` is `None`, so the application raises `TypeError` and
`count_entries` never becomes a callable attribute. -/
def count_entries_attr :
    Except PyErr (Option (List (List Entry) → Nat)) :=
  pyCall (memoize "_total") count_entries_body

/-! ## `BibtexAutocomplete.get_dois` (autocomplete.py lines 62-76)

The concrete DOI adapters (`CrossrefLookup`, `DBLPLookup` from
lookup_doi.py, not among the sources) are modelled from the spec: an
adapter turns an entry into an optional result string and never mutates
the entry (per the spec, entries are only mutated by the merge step; the
lookup framework in lookup.py only reads `self.entry`). `get_dois` skips
entries that already have a non-empty `doi`, tries the adapters in order,
and on the first hit logs `entry["ID"]` (a `KeyError` when absent) and
assigns `entry["doi"]`. -/

/-- Processing of one entry by `get_dois`. -/
def get_dois_entry (lookups : List (Entry → Option String)) (e : Entry) :
    Except PyErr Entry :=
  if has_field e "doi" then Except.ok e
  else
    match lookups.findSome? (fun lk => lk e) with
    | none => Except.ok e
    | some res =>
      match getField e "ID" with
      | none => Except.error PyErr.keyError
      | some _ => Except.ok (setField e "doi" res)

/-- The loop of `get_dois` over the yielded entries: entries processed in
order; an exception leaves the remaining entries untouched; exhausting
`iter_entries` raises `RuntimeError` (the `[]` case). -/
def get_doisAux (lookups : List (Entry → Option String)) :
    List Entry → List Entry × Option PyErr
  | [] => ([], some PyErr.runtimeError)
  | e :: rest =>
    match get_dois_entry lookups e with
    | Except.error err => (e :: rest, some err)
    | Except.ok e2 =>
      let t := get_doisAux lookups rest
      (e2 :: t.1, t.2)

/-- `BibtexAutocomplete.get_dois`: the final state of the entry sequence
and the exception that ends the call. -/
def get_dois (lookups : List (Entry → Option String))
    (dbs : List (List Entry)) : List Entry × Option PyErr :=
  get_doisAux lookups (iter_entries dbs).1

/-! ## Decidable equality for embedded outcomes and concrete inputs -/

instance {α β : Type} [DecidableEq α] [DecidableEq β] : DecidableEq (Except α β) :=
  fun a b =>
    match a, b with
    | Except.ok x, Except.ok y => decidable_of_iff (x = y) (by simp)
    | Except.error x, Except.error y => decidable_of_iff (x = y) (by simp)
    | Except.ok _, Except.error _ => isFalse (by simp)
    | Except.error _, Except.ok _ => isFalse (by simp)

/-- An oracle for `lookup()` that never finds anything. -/
def lkNone : Option String → Option String → Option String := fun _ _ => none

/-- An entry with a title but no author field. -/
def eTitleOnly : Entry := [("title", "T"), ("plain_title", "T")]

/-- An entry with both title and author (two authors). -/
def eBoth : Entry :=
  [("title", "T"), ("plain_title", "T"),
    ("author", "Aa and Bb"), ("plain_author", "Aa and Bb")]

/-- An author field with eleven authors. -/
def elevenAuthors : String :=
  "Ca and Cb and Cc and Cd and Ce and Cf and Cg and Ch and Ci and Cj and Ck"

/-- An entry with a title and eleven authors. -/
def e11 : Entry :=
  [("title", "T"), ("plain_title", "T"),
    ("author", elevenAuthors), ("plain_author", elevenAuthors)]

/-- A two-entry database whose input order disagrees with the writer's
`(author, year, title)` sort order. -/
def dbTwo : List Entry :=
  [[("ID", "e1"), ("author", "b"), ("plain_author", "b")],
    [("ID", "e2"), ("author", "a")]]

/-- Two candidate records for the same local title: the first has a close
but inexact title, the second the exact title; both carry values. -/
def recsTwo : List SearchRec :=
  [(some "reactive path deformatio", some "v1"),
    (some "Reactive Path Deformation", some "v2")]

/-- A JSON parser that always fails, and an adapter record extractor that
always fails, standing in for arbitrary external behaviour in concrete
evaluations. -/
def jsonParseNone : List Char → Option Unit := fun _ => none

/-- See `jsonParseNone`. -/
def getResultsJsonNone : Unit → Option (List SearchRec) := fun _ => none

/-! # Lemmas and claim theorems -/

theorem exc_bind_ok {α β : Type} (a : α) (f : α → Except PyErr β) :
    (Except.ok a : Except PyErr α).bind f = f a := rfl

theorem exc_pure_bind {α β : Type} (a : α) (f : α → Except PyErr β) :
    (Except.ok a : Except PyErr α) >>= f = f a := rfl

theorem runSeq_calls_suffix (lk : Option String → Option String → Option String) :
    ∀ s, ∃ t, (runSeq lk s).1 ++ t = s := by
  intro s
  induction s with
  | nil => exact ⟨[], rfl⟩
  | cons c cs ih =>
    cases hc : lk c.1 c.2 with
    | some v => exact ⟨cs, by simp [runSeq, hc]⟩
    | none =>
      obtain ⟨t, ht⟩ := ih
      exact ⟨t, by simp [runSeq, hc, ht]⟩

theorem runSeq_length_le (lk : Option String → Option String → Option String)
    (s : List (Option String × Option String)) :
    (runSeq lk s).1.length ≤ s.length := by
  obtain ⟨t, ht⟩ := runSeq_calls_suffix lk s
  have hlen := congrArg List.length ht
  rw [List.length_append] at hlen
  omega

theorem runSeq_dropLast_none (lk : Option String → Option String → Option String) :
    ∀ s, ∀ c ∈ (runSeq lk s).1.dropLast, lk c.1 c.2 = none := by
  intro s
  induction s with
  | nil =>
    intro c hc
    rw [show runSeq lk [] = ([], none) from rfl] at hc
    simp at hc
  | cons x cs ih =>
    intro c hc
    cases hx : lk x.1 x.2 with
    | some v => simp [runSeq, hx] at hc
    | none =>
      simp only [runSeq, hx] at hc
      cases hr : (runSeq lk cs).1 with
      | nil => rw [hr] at hc; simp at hc
      | cons y ys =>
        rw [hr] at hc
        rw [List.dropLast_cons₂] at hc
        rcases List.mem_cons.mp hc with hceq | hc2
        · exact hceq ▸ hx
        · exact ih c (by rw [hr]; exact hc2)

theorem runSeq_result_last (lk : Option String → Option String → Option String) :
    ∀ s, (runSeq lk s).2 = ((runSeq lk s).1.getLast?.bind fun c => lk c.1 c.2) := by
  intro s
  induction s with
  | nil => simp [runSeq]
  | cons x cs ih =>
    cases hx : lk x.1 x.2 with
    | some v => simp [runSeq, hx]
    | none =>
      simp only [runSeq, hx]
      cases hr : (runSeq lk cs).1 with
      | nil =>
        have : (runSeq lk cs).2 = none := by
          rw [ih, hr]; rfl
        simp [this, hx]
      | cons y ys =>
        rw [ih, hr]
        simp

theorem runSeq_none_full (lk : Option String → Option String → Option String) :
    ∀ s, (runSeq lk s).2 = none → (runSeq lk s).1 = s := by
  intro s
  induction s with
  | nil => intro _; rfl
  | cons x cs ih =>
    intro h
    cases hx : lk x.1 x.2 with
    | some v => simp [runSeq, hx] at h
    | none =>
      simp only [runSeq, hx] at h ⊢
      exact congrArg (x :: ·) (ih h)

theorem runSeq_append (lk : Option String → Option String → Option String) :
    ∀ xs ys, runSeq lk (xs ++ ys) =
      match (runSeq lk xs).2 with
      | some v => ((runSeq lk xs).1, some v)
      | none => ((runSeq lk xs).1 ++ (runSeq lk ys).1, (runSeq lk ys).2) := by
  intro xs ys
  induction xs with
  | nil => simp [runSeq]
  | cons x cs ih =>
    cases hx : lk x.1 x.2 with
    | some v => simp [runSeq, hx]
    | none =>
      simp only [List.cons_append, runSeq, hx, List.append_eq]
      cases h2 : (runSeq lk cs).2 with
      | some v => rw [ih]; simp [h2]
      | none => rw [ih]; simp [h2]

theorem phase2loop_eq_runSeq (lk : Option String → Option String → Option String)
    (t : Option String) :
    ∀ auths (q : Nat), 1 ≤ q → q ≤ max_search_queries →
      phase2loop lk t auths q =
        runSeq lk ((auths.take (max_search_queries + 1 - q)).map
          (fun a => (t, some a.lastname))) := by
  intro auths
  induction auths with
  | nil => intro q _ _; simp [phase2loop, runSeq]
  | cons a rest ih =>
    intro q h1 h10
    have htake : max_search_queries + 1 - q = (max_search_queries - q) + 1 := by omega
    rw [htake]
    simp only [List.take_succ_cons, List.map_cons]
    cases ha : lk t (some a.lastname) with
    | some v => simp [phase2loop, runSeq, ha]
    | none =>
      simp only [phase2loop, runSeq, ha]
      by_cases hq : q + 1 > max_search_queries
      · have : max_search_queries - q = 0 := by omega
        simp [hq, this, runSeq]
      · have h2 : 1 ≤ q + 1 := by omega
        have h3 : q + 1 ≤ max_search_queries := by omega
        have : max_search_queries - q = max_search_queries + 1 - (q + 1) := by omega
        rw [if_neg hq, this, ih (q + 1) h2 h3]

theorem query_both_eq_runSeq (lk : Option String → Option String → Option String)
    (e : Entry) (pt pa : String) (auths : List Author)
    (ht : has_field e "title" = true) (hpt : getField e "plain_title" = some pt)
    (ha : has_field e "author" = true) (hpa : getField e "plain_author" = some pa)
    (hau : get_authors pa = Except.ok auths) :
    query lk e = Except.ok (QueryRes.mk
      (runSeq lk (querySeq (String.mk (pyStrip pt.data)) auths)).1
      (runSeq lk (querySeq (String.mk (pyStrip pt.data)) auths)).2) := by
  have hgetT : getItem e "plain_title" = Except.ok pt := by simp [getItem, hpt]
  have hgetA : getItem e "plain_author" = Except.ok pa := by simp [getItem, hpa]
  set t : String := String.mk (pyStrip pt.data) with hts
  set joined : String :=
    String.intercalate author_join (auths.map Author.lastname) with hj
  simp only [query, ht, hpt, ha, hpa, hau, hgetT, hgetA, if_true, bind,
    Except.bind, exc_bind_ok, readAttr]
  simp only [querySeq, ← hts, ← hj]
  cases h1 : lk (some t) (some joined) with
  | some v =>
    simp [runSeq, h1]
  | none =>
    have hmid : (if auths.length > 1 then phase2loop lk (some t) auths 1
        else ([], none)) =
        runSeq lk (if auths.length > 1 then
          (auths.take max_search_queries).map (fun a => (some t, some a.lastname))
        else []) := by
      by_cases hl : auths.length > 1
      · rw [if_pos hl, if_pos hl,
          phase2loop_eq_runSeq lk (some t) auths 1 (le_refl 1) (by decide),
          Nat.add_sub_cancel]
      · rw [if_neg hl, if_neg hl]; rfl
    simp only [runSeq, h1, hmid]
    set mid : List (Option String × Option String) :=
      (if auths.length > 1 then
        (auths.take max_search_queries).map (fun a => (some t, some a.lastname))
      else []) with hmids
    simp only [List.append_eq]
    rw [runSeq_append lk mid [(some t, none)]]
    cases h2 : (runSeq lk mid).2 with
    | some v => simp [h2]
    | none =>
      have hfull := runSeq_none_full lk mid h2
      have hone : runSeq lk [(some t, none)] = ([(some t, none)], lk (some t) none) := by
        cases h3 : lk (some t) none <;> simp [runSeq, h3]
      simp [hone, hfull, h2]

/-- C1: the claim (query checks `title`/`author` before the dependent
reads and degrades gracefully) is what the spec demands, and the code
breaks it: on an entry with a title but no author field and no successful
lookup, `query` reads the unbound local `authors` (`UnboundLocalError`,
embedded as `nameError`); on an entry with neither field it reads the
never-assigned attribute `self.title` (`AttributeError`). -/
theorem c1_query_unchecked_reads_crash :
    query lkNone eTitleOnly = Except.error PyErr.nameError ∧
    query lkNone ([] : Entry) = Except.error PyErr.attributeError := by
  exact ⟨by decide, by decide⟩

/-- C3 (counterexample): on an entry with a title and eleven authors
whose lookups all fail, `query` makes 12 `lookup()` calls (1 all-authors,
10 single-author, 1 title-only), exceeding `max_search_queries = 10`,
which the claim states as the cap on total lookups. -/
theorem c3_counterexample :
    (query lkNone e11).map (fun r => (r.calls.length, r.result)) =
      Except.ok (12, none) ∧ ¬ (12 ≤ max_search_queries) := by
  exact ⟨by decide, by decide⟩

/-- C3 (amended): for every entry with both a `title` and an `author`
field (and their `plain_` forms, with a parseable author list), `query`
issues lookups in the fixed order given by `querySeq` (all authors plus
title, then each of the first `max_search_queries` single authors plus
title when there are at least two authors, then title only), stops at the
first lookup returning a result, and makes at most
`max_search_queries + 2 = 12` lookups in total. -/
theorem c3_query_fixed_order_capped
    (lk : Option String → Option String → Option String)
    (e : Entry) (pt pa : String) (auths : List Author)
    (ht : has_field e "title" = true) (hpt : getField e "plain_title" = some pt)
    (ha : has_field e "author" = true) (hpa : getField e "plain_author" = some pa)
    (hau : get_authors pa = Except.ok auths) :
    ∃ r : QueryRes, query lk e = Except.ok r ∧
      r.calls.length ≤ max_search_queries + 2 ∧
      (∃ rest, r.calls ++ rest = querySeq (String.mk (pyStrip pt.data)) auths) ∧
      (∀ c ∈ r.calls.dropLast, lk c.1 c.2 = none) ∧
      r.result = (r.calls.getLast?.bind fun c => lk c.1 c.2) ∧
      (r.result = none →
        r.calls = querySeq (String.mk (pyStrip pt.data)) auths) := by
  have hseq : (querySeq (String.mk (pyStrip pt.data)) auths).length ≤
      max_search_queries + 2 := by
    have h10 : (List.take max_search_queries auths).length ≤ max_search_queries := by
      rw [List.length_take]; exact Nat.min_le_left _ _
    by_cases hl : auths.length > 1
    · simp only [querySeq, List.length_cons, List.length_append, if_pos hl,
        List.length_map, List.length_singleton, List.length_nil]
      omega
    · simp [querySeq, hl]
  refine ⟨_, query_both_eq_runSeq lk e pt pa auths ht hpt ha hpa hau,
    ?_, ?_, ?_, ?_, ?_⟩
  · exact le_trans (runSeq_length_le lk _) hseq
  · exact runSeq_calls_suffix lk _
  · exact runSeq_dropLast_none lk _
  · exact runSeq_result_last lk _
  · intro h; exact runSeq_none_full lk _ h

/-- Witness for C3 (amended) at a concrete two-author entry. -/
theorem c3_witness :
    ∃ r : QueryRes, query lkNone eBoth = Except.ok r ∧
      r.calls.length ≤ max_search_queries + 2 ∧
      (∃ rest, r.calls ++ rest =
        querySeq "T" [Author.mk "Aa" "", Author.mk "Bb" ""]) ∧
      (∀ c ∈ r.calls.dropLast, lkNone c.1 c.2 = none) ∧
      r.result = (r.calls.getLast?.bind fun c => lkNone c.1 c.2) ∧
      (r.result = none →
        r.calls = querySeq "T" [Author.mk "Aa" "", Author.mk "Bb" ""]) :=
  c3_query_fixed_order_capped lkNone eBoth "T" "Aa and Bb"
    [Author.mk "Aa" "", Author.mk "Bb" ""]
    (by decide) (by decide) (by decide) (by decide) (by decide)

/-- C5 (counterexample): the claim says a response is dropped as
no_response exactly when the status is not 2xx; but for status 201 (a 2xx
success) `lookup` also drops the response without reading the body, since
the code tests `status != 200`. -/
theorem c5_counterexample :
    ¬ (∀ (status : Nat) (body : List Nat)
        (h : List Nat → Except PyErr (Option String)),
        ((lookupBase (NetOutcome.response status body) h).2 = false ↔
          ¬ (200 ≤ status ∧ status ≤ 299))) := by
  intro hall
  have h201 := (hall 201 [] (fun _ => Except.ok (some "x"))).mp (by decide)
  exact h201 (by decide)

/-- C5 (amended): `lookup` treats a response as no_response (returns
`None` without reading the body) exactly when the status code is not
equal to 200; for a 200 response the body is read and passed to
`handle_output`. -/
theorem c5_lookup_status_200_only
    (status : Nat) (body : List Nat)
    (h : List Nat → Except PyErr (Option String)) :
    ((lookupBase (NetOutcome.response status body) h).2 = false ↔ status ≠ 200) ∧
    (status ≠ 200 →
      lookupBase (NetOutcome.response status body) h = (Except.ok none, false)) ∧
    (status = 200 →
      lookupBase (NetOutcome.response status body) h = (h body, true)) := by
  refine ⟨?_, ?_, ?_⟩ <;> by_cases hs : status = 200 <;> simp [lookupBase, hs]

/-- Witness for C5 (amended) at statuses 404 and 200. -/
theorem c5_witness :
    lookupBase (NetOutcome.response 404 [7]) (fun _ => Except.ok (some "x")) =
      (Except.ok none, false) ∧
    lookupBase (NetOutcome.response 200 [7]) (fun _ => Except.ok (some "x")) =
      (Except.ok (some "x"), true) :=
  ⟨(c5_lookup_status_200_only 404 [7] (fun _ => Except.ok (some "x"))).2.1
      (by decide),
    (c5_lookup_status_200_only 200 [7] (fun _ => Except.ok (some "x"))).2.2 rfl⟩

/-- C6: the claim matches the documented contract of `get_results`
(return `None` on invalid data), but the code violates it: a body that is
not valid UTF-8 (the byte 0xFF) makes `bytes.decode()` raise a
`UnicodeDecodeError` that the `except JSONDecodeError` clause does not
catch, so the exception propagates out of the lookup instead of yielding
no records; a body that is valid UTF-8 but not JSON (the byte 0x78,
`"x"`) is handled as the claim states. -/
theorem c6_json_decode_handling :
    get_resultsJSON jsonParseNone getResultsJsonNone [255] =
      Except.error PyErr.unicodeDecodeError ∧
    handle_outputJSON str_similar "t" jsonParseNone getResultsJsonNone [255] =
      Except.error PyErr.unicodeDecodeError ∧
    get_resultsJSON jsonParseNone getResultsJsonNone [120] = Except.ok none ∧
    handle_outputJSON str_similar "t" jsonParseNone getResultsJsonNone [120] =
      Except.ok none := by
  exact ⟨by decide, by decide, by decide, by decide⟩

/-- C9: the claim describes the intended memoised `count_entries`, but
`memoize` has no `return` statements, so `memoize("_total")` is `None`
and applying it as a decorator raises `TypeError` when the class body
runs: `count_entries` never becomes callable. The loop body it should
have run does compute the total entry count (and is deterministic, so a
second call would return the same value). -/
theorem c9_memoize_returns_none :
    count_entries_attr = Except.error PyErr.typeError ∧
    ∀ dbs : List (List Entry),
      count_entries_body dbs = (dbs.map List.length).sum := by
  constructor
  · rfl
  · intro dbs
    have haux : ∀ (l : List (List Entry)) (n : Nat),
        List.foldl (fun count db => count + (get_entries db).length) n l =
          n + (l.map List.length).sum := by
      intro l
      induction l with
      | nil => intro n; simp
      | cons d rest ih =>
        intro n
        rw [List.foldl_cons, ih]
        simp only [List.map_cons, List.sum_cons, get_entries]
        omega
    simpa [count_entries_body] using haux dbs 0

theorem iter_entries_spec (dbs : List (List Entry)) :
    iter_entries dbs = (dbs.flatten, some PyErr.runtimeError) := by
  induction dbs with
  | nil => rfl
  | cons d rest ih => simp [iter_entries, ih, get_entries, List.flatten]

theorem get_doisAux_raises (lookups : List (Entry → Option String)) :
    ∀ es, ((get_doisAux lookups es).2).isSome = true := by
  intro es
  induction es with
  | nil => rfl
  | cons e rest ih =>
    simp only [get_doisAux]
    cases h : get_dois_entry lookups e with
    | error err => simp
    | ok e2 => simpa using ih

/-- C10: the claim describes the generator's intent, but its trailing
`raise StopIteration()` is converted by PEP 479 into a `RuntimeError`:
`iter_entries` does yield exactly the entries of each database in order,
yet exhausting it raises instead of terminating normally, so
`count_missing` and `get_dois` (which iterate it to exhaustion) always
end in an exception. -/
theorem c10_iter_entries_raises (dbs : List (List Entry)) (field : String)
    (lookups : List (Entry → Option String)) :
    (iter_entries dbs).1 = dbs.flatten ∧
    (iter_entries dbs).2 = some PyErr.runtimeError ∧
    count_missing dbs field = Except.error PyErr.runtimeError ∧
    ((get_dois lookups dbs).2).isSome = true := by
  refine ⟨by rw [iter_entries_spec], by rw [iter_entries_spec], ?_, ?_⟩
  · simp [count_missing, iter_entries_spec]
  · exact get_doisAux_raises lookups (iter_entries dbs).1

theorem getField_cons (p : String × String) (rest : Entry) (g : String) :
    getField (p :: rest) g = if p.1 = g then some p.2 else getField rest g := by
  unfold getField
  rw [List.find?_cons]
  by_cases h : p.1 = g
  · simp [h]
  · simp [h]

theorem getField_map_replace (f v g : String) (hg : g ≠ f) :
    ∀ e : Entry,
      getField (e.map (fun p => if p.1 = f then (p.1, v) else p)) g =
        getField e g := by
  intro e
  induction e with
  | nil => rfl
  | cons p rest ih =>
    by_cases hpf : p.1 = f
    · have hpg : ¬ p.1 = g := fun h => hg (h ▸ hpf)
      simp only [List.map_cons, if_pos hpf, getField_cons, if_neg hpg, ih]
    · simp only [List.map_cons, if_neg hpf, getField_cons, ih]

theorem getField_append_single (e : Entry) (f v g : String) (hg : g ≠ f) :
    getField (e ++ [(f, v)]) g = getField e g := by
  induction e with
  | nil =>
    have : ¬ f = g := fun h => hg h.symm
    simp [getField_cons, this, getField]
  | cons p rest ih =>
    rw [List.cons_append, getField_cons, getField_cons, ih]

theorem getField_setField_other (e : Entry) (f v g : String) (hg : g ≠ f) :
    getField (setField e f v) g = getField e g := by
  unfold setField
  by_cases hp : (e.find? (fun p => p.1 = f)).isSome = true
  · rw [if_pos hp]; exact getField_map_replace f v g hg e
  · rw [if_neg hp]; exact getField_append_single e f v g hg

theorem get_dois_entry_frame (lookups : List (Entry → Option String))
    (e : Entry) :
    (has_field e "doi" = true → get_dois_entry lookups e = Except.ok e) ∧
    ∀ e2, get_dois_entry lookups e = Except.ok e2 →
      getField e2 "ID" = getField e "ID" ∧
      ∀ f, f ≠ "doi" → getField e2 f = getField e f := by
  constructor
  · intro h; simp [get_dois_entry, h]
  · intro e2 h2
    unfold get_dois_entry at h2
    by_cases hd : has_field e "doi" = true
    · rw [if_pos hd] at h2
      injection h2 with h2
      subst h2
      exact ⟨rfl, fun f _ => rfl⟩
    · rw [if_neg hd] at h2
      cases hfind : lookups.findSome? (fun lk => lk e) with
      | none =>
        rw [hfind] at h2
        injection h2 with h2
        subst h2
        exact ⟨rfl, fun f _ => rfl⟩
      | some res =>
        rw [hfind] at h2
        cases hid : getField e "ID" with
        | none => rw [hid] at h2; cases h2
        | some idv =>
          rw [hid] at h2
          injection h2 with h2
          subst h2
          refine ⟨?_, fun f hf => getField_setField_other e "doi" res f hf⟩
          exact (getField_setField_other e "doi" res "ID" (by decide)).trans hid

theorem get_doisAux_frame (lookups : List (Entry → Option String)) :
    ∀ es, ((get_doisAux lookups es).1).length = es.length ∧
      ∀ i e o, es.get? i = some e →
        (get_doisAux lookups es).1.get? i = some o →
        getField o "ID" = getField e "ID" ∧
        (has_field e "doi" = true → o = e) ∧
        (∀ f, f ≠ "doi" → getField o f = getField e f) := by
  intro es
  induction es with
  | nil => exact ⟨rfl, fun i e o h1 _ => by simp at h1⟩
  | cons x rest ih =>
    cases hx : get_dois_entry lookups x with
    | error err =>
      constructor
      · simp [get_doisAux, hx]
      · intro i e o h1 h2
        simp only [get_doisAux, hx] at h2
        rw [h1] at h2
        injection h2 with h2
        subst h2
        exact ⟨rfl, fun _ => rfl, fun f _ => rfl⟩
    | ok x2 =>
      constructor
      · simpa [get_doisAux, hx] using ih.1
      · intro i e o h1 h2
        simp only [get_doisAux, hx] at h2
        cases i with
        | zero =>
          simp only [List.get?_cons_zero] at h1 h2
          injection h1 with h1
          injection h2 with h2
          rw [← h1, ← h2]
          refine ⟨((get_dois_entry_frame lookups x).2 x2 hx).1, ?_,
            ((get_dois_entry_frame lookups x).2 x2 hx).2⟩
          intro hd
          have hok := (get_dois_entry_frame lookups x).1 hd
          rw [hok] at hx
          injection hx with hx
          exact hx.symm
        | succ n =>
          exact ih.2 n e o (by simpa using h1) (by simpa using h2)

/-- C7: `get_dois` never mutates the `ID` field of any entry, leaves
entries that already have a non-empty `doi` untouched, and modifies at
most the `doi` field of every other entry (the DOI adapters being
modelled as non-mutating query functions, per the spec contract for
adapters). -/
theorem c7_get_dois_frame (lookups : List (Entry → Option String))
    (dbs : List (List Entry)) :
    (get_dois lookups dbs).1.length = (iter_entries dbs).1.length ∧
    ∀ i e o, (iter_entries dbs).1.get? i = some e →
      (get_dois lookups dbs).1.get? i = some o →
      getField o "ID" = getField e "ID" ∧
      (has_field e "doi" = true → o = e) ∧
      (∀ f, f ≠ "doi" → getField o f = getField e f) :=
  get_doisAux_frame lookups (iter_entries dbs).1

/-- Concrete database and adapter list for the C7 witness. -/
def dbC7 : List (List Entry) :=
  [[[("ID", "a"), ("doi", "10.1/z")], [("ID", "b"), ("title", "t")]]]

/-- See `dbC7`. -/
def lkC7 : List (Entry → Option String) := [fun _ => some "10.1/x"]

/-- Witness for C7 at a concrete run: the completed entry keeps its `ID`
and `title`, and the entry that already had a DOI is returned unchanged. -/
theorem c7_witness :
    getField [("ID", "b"), ("title", "t"), ("doi", "10.1/x")] "ID" =
      getField [("ID", "b"), ("title", "t")] "ID" ∧
    getField [("ID", "b"), ("title", "t"), ("doi", "10.1/x")] "title" =
      getField [("ID", "b"), ("title", "t")] "title" ∧
    [("ID", "a"), ("doi", "10.1/z")] = ([("ID", "a"), ("doi", "10.1/z")] : Entry) := by
  have h1 := (c7_get_dois_frame lkC7 dbC7).2 1 [("ID", "b"), ("title", "t")]
    [("ID", "b"), ("title", "t"), ("doi", "10.1/x")] (by decide) (by decide)
  have h0 := (c7_get_dois_frame lkC7 dbC7).2 0 [("ID", "a"), ("doi", "10.1/z")]
    [("ID", "a"), ("doi", "10.1/z")] (by decide) (by decide)
  exact ⟨h1.1, h1.2.2 "title" (by decide), h0.2.1 (by decide)⟩

theorem char_eq_of_toNat_eq {x y : Char} (h : x.toNat = y.toNat) : x = y :=
  Char.eq_of_val_eq (UInt32.ext h)

theorem strLe_total : ∀ a b, strLe a b = true ∨ strLe b a = true := by
  intro a
  induction a with
  | nil => intro b; left; rfl
  | cons x xs ih =>
    intro b
    cases b with
    | nil => right; rfl
    | cons y ys =>
      by_cases h1 : x.toNat < y.toNat
      · left; simp [strLe, h1]
      · by_cases h2 : y.toNat < x.toNat
        · right; simp [strLe, h2]
        · rcases ih ys with h | h
          · left; simp [strLe, h1, h2, h]
          · right; simp [strLe, h1, h2, h]

theorem strLe_antisymm : ∀ a b, strLe a b = true → strLe b a = true → a = b := by
  intro a
  induction a with
  | nil =>
    intro b h1 h2
    cases b with
    | nil => rfl
    | cons y ys => simp [strLe] at h2
  | cons x xs ih =>
    intro b h1 h2
    cases b with
    | nil => simp [strLe] at h1
    | cons y ys =>
      by_cases hxy : x.toNat < y.toNat
      · have hyx : ¬ y.toNat < x.toNat := Nat.lt_asymm hxy
        simp [strLe, hxy, hyx] at h2
      · by_cases hyx : y.toNat < x.toNat
        · simp [strLe, hxy, hyx] at h1
        · have hx : x = y :=
            char_eq_of_toNat_eq
              (Nat.le_antisymm (Nat.le_of_not_lt hyx) (Nat.le_of_not_lt hxy))
        
          have h1b : strLe xs ys = true := by simpa [strLe, hxy, hyx] using h1
          have h2b : strLe ys xs = true := by simpa [strLe, hxy, hyx] using h2
          rw [hx, ih ys h1b h2b]

theorem strLe_trans : ∀ a b c,
    strLe a b = true → strLe b c = true → strLe a c = true := by
  intro a
  induction a with
  | nil => intro b c _ _; rfl
  | cons x xs ih =>
    intro b c hab hbc
    cases b with
    | nil => simp [strLe] at hab
    | cons y ys =>
      cases c with
      | nil => simp [strLe] at hbc
      | cons z zs =>
        by_cases hxy : x.toNat < y.toNat
        · by_cases hyz : y.toNat < z.toNat
          · have hxz : x.toNat < z.toNat := Nat.lt_trans hxy hyz
            simp [strLe, hxz]
          · by_cases hzy : z.toNat < y.toNat
            · simp [strLe, hyz, hzy] at hbc
            · have hyz2 : y.toNat = z.toNat :=
                Nat.le_antisymm (Nat.le_of_not_lt hzy) (Nat.le_of_not_lt hyz)
              have hxz : x.toNat < z.toNat := hyz2 ▸ hxy
              simp [strLe, hxz]
        · by_cases hyx : y.toNat < x.toNat
          · simp [strLe, hxy, hyx] at hab
          · have hxy2 : x.toNat = y.toNat :=
              Nat.le_antisymm (Nat.le_of_not_lt hyx) (Nat.le_of_not_lt hxy)
            have hab2 : strLe xs ys = true := by simpa [strLe, hxy, hyx] using hab
            by_cases hyz : y.toNat < z.toNat
            · have hxz : x.toNat < z.toNat := hxy2 ▸ hyz
              simp [strLe, hxz]
            · by_cases hzy : z.toNat < y.toNat
              · simp [strLe, hyz, hzy] at hbc
              · have hbc2 : strLe ys zs = true := by
                  simpa [strLe, hyz, hzy] using hbc
                have hxz : ¬ x.toNat < z.toNat := by rw [hxy2]; exact hyz
                have hzx : ¬ z.toNat < x.toNat := by rw [hxy2]; exact hzy
                simp [strLe, hxz, hzx, ih ys zs hab2 hbc2]

theorem keyLe_total (x y : Entry) : keyLe x y = true ∨ keyLe y x = true := by
  unfold keyLe
  by_cases h1 : (entryKey x).1 = (entryKey y).1
  · rw [if_pos h1, if_pos h1.symm]
    by_cases h2 : (entryKey x).2.1 = (entryKey y).2.1
    · rw [if_pos h2, if_pos h2.symm]
      exact strLe_total _ _
    · rw [if_neg h2, if_neg (fun h => h2 h.symm)]
      exact strLe_total _ _
  · rw [if_neg h1, if_neg (fun h => h1 h.symm)]
    exact strLe_total _ _

theorem keyLe_trans (x y z : Entry) (h1 : keyLe x y = true)
    (h2 : keyLe y z = true) : keyLe x z = true := by
  unfold keyLe at h1 h2 ⊢
  by_cases e1 : (entryKey x).1 = (entryKey y).1
  · rw [if_pos e1] at h1
    by_cases e2 : (entryKey y).1 = (entryKey z).1
    · rw [if_pos e2] at h2
      rw [if_pos (e1.trans e2)]
      by_cases f1 : (entryKey x).2.1 = (entryKey y).2.1
      · rw [if_pos f1] at h1
        by_cases f2 : (entryKey y).2.1 = (entryKey z).2.1
        · rw [if_pos f2] at h2
          rw [if_pos (f1.trans f2)]
          exact strLe_trans _ _ _ h1 h2
        · rw [if_neg f2] at h2
          rw [if_neg (fun h => f2 (f1.symm.trans h)), f1]
          exact h2
      · rw [if_neg f1] at h1
        by_cases f2 : (entryKey y).2.1 = (entryKey z).2.1
        · rw [if_neg (fun h => f1 (h.trans f2.symm)), ← f2]
          exact h1
        · rw [if_neg f2] at h2
          by_cases f3 : (entryKey x).2.1 = (entryKey z).2.1
          · exact absurd (strLe_antisymm _ _ h1 (f3 ▸ h2)) f1
          · rw [if_neg f3]
            exact strLe_trans _ _ _ h1 h2
    · rw [if_neg e2] at h2
      rw [if_neg (fun h => e2 (e1.symm.trans h)), e1]
      exact h2
  · rw [if_neg e1] at h1
    by_cases e2 : (entryKey y).1 = (entryKey z).1
    · rw [if_neg (fun h => e1 (h.trans e2.symm)), ← e2]
      exact h1
    · rw [if_neg e2] at h2
      by_cases e3 : (entryKey x).1 = (entryKey z).1
      · exact absurd (strLe_antisymm _ _ h1 (e3 ▸ h2)) e1
      · rw [if_neg e3]
        exact strLe_trans _ _ _ h1 h2

instance : IsTotal Entry writerLE := ⟨keyLe_total⟩

instance : IsTrans Entry writerLE := ⟨keyLe_trans⟩

/-- C2 (counterexample): the writer is configured with
`order_entries_by = ("author", "year", "title")`, so on a database whose
input order disagrees with that key order the emitted entry sequence is
sorted, not the input sequence: here the entry with author `a` is written
before the earlier entry with author `b`. -/
theorem c2_counterexample :
    write dbTwo =
      [[("ID", "e2"), ("author", "a")], [("ID", "e1"), ("author", "b")]] ∧
    dbTwo.map remove_plain_fields =
      [[("ID", "e1"), ("author", "b")], [("ID", "e2"), ("author", "a")]] ∧
    write dbTwo ≠ dbTwo.map remove_plain_fields := by
  exact ⟨by decide, by decide, by decide⟩

/-- C2 (amended): the entries written to the output are exactly the
consumed entries with their `plain_` fields removed (a permutation, no
entry added or dropped), emitted in the writer's `(author, year, title)`
key order rather than in original input order. -/
theorem c2_write_sorted_perm (db : List Entry) :
    List.Perm (write db) (db.map remove_plain_fields) ∧
    List.Sorted writerLE (write db) :=
  ⟨List.perm_insertionSort writerLE (db.map remove_plain_fields),
    List.sorted_insertionSort writerLE (db.map remove_plain_fields)⟩

theorem searchLoop_some_iff (sim : String → String → Bool) (t : String) :
    ∀ (rs : List SearchRec) (v : String),
      searchLoop sim t rs = some v ↔
        ∃ i r, rs.get? i = some r ∧ recHit sim t r = some v ∧
          ∀ j r2, j < i → rs.get? j = some r2 → recHit sim t r2 = none := by
  intro rs
  induction rs with
  | nil => intro v; simp [searchLoop]
  | cons r rest ih =>
    intro v
    cases hr : recHit sim t r with
    | some w =>
      simp only [searchLoop, hr]
      constructor
      · intro h
        injection h with h
        refine ⟨0, r, rfl, by rw [hr, h], fun j r2 hj _ => absurd hj (Nat.not_lt_zero j)⟩
      · rintro ⟨i, r2, hget, hhit, hmin⟩
        cases i with
        | zero =>
          rw [List.get?_cons_zero] at hget
          injection hget with hget
          rw [← hget] at hhit
          rw [hr] at hhit
          exact hhit
        | succ n =>
          have h0 := hmin 0 r (Nat.succ_pos n) rfl
          rw [hr] at h0
          cases h0
    | none =>
      simp only [searchLoop, hr]
      rw [ih v]
      constructor
      · rintro ⟨i, r2, hget, hhit, hmin⟩
        refine ⟨i + 1, r2, by simpa using hget, hhit, ?_⟩
        intro j r3 hj hget3
        cases j with
        | zero =>
          rw [List.get?_cons_zero] at hget3
          injection hget3 with hget3
          rw [← hget3]
          exact hr
        | succ m =>
          exact hmin m r3 (Nat.lt_of_succ_lt_succ hj) (by simpa using hget3)
      · rintro ⟨i, r2, hget, hhit, hmin⟩
        cases i with
        | zero =>
          rw [List.get?_cons_zero] at hget
          injection hget with hget
          rw [← hget, hr] at hhit
          cases hhit
        | succ n =>
          refine ⟨n, r2, by simpa using hget, hhit, ?_⟩
          intro j r3 hj h3
          exact hmin (j + 1) r3 (Nat.succ_lt_succ hj) (by simpa using h3)

theorem searchLoop_none_iff (sim : String → String → Bool) (t : String) :
    ∀ rs : List SearchRec,
      searchLoop sim t rs = none ↔
        ∀ i r, rs.get? i = some r → recHit sim t r = none := by
  intro rs
  induction rs with
  | nil => simp [searchLoop]
  | cons r rest ih =>
    cases hr : recHit sim t r with
    | some w =>
      simp only [searchLoop, hr]
      constructor
      · intro h; cases h
      · intro h
        have h0 := h 0 r rfl
        rw [hr] at h0
        cases h0
    | none =>
      simp only [searchLoop, hr]
      rw [ih]
      constructor
      · intro h i r2 hget
        cases i with
        | zero =>
          rw [List.get?_cons_zero] at hget
          injection hget with hget
          rw [← hget]
          exact hr
        | succ n => exact h n r2 (by simpa using hget)
      · intro h i r2 hget
        exact h (i + 1) r2 (by simpa using hget)

/-- C4 (counterexample): `handle_output` returns the value of the first
record whose title passes `str_similar`, not the best-scoring one: with a
first record whose title is only a close substring (partial score 1) and
a second whose title is exactly the local title (certain score 2), the
code returns the first value while the selection rule of the spec returns
the second. -/
theorem c4_counterexample :
    handle_output str_similar "reactive path deformation" (some recsTwo) =
      some "v1" ∧
    specBestSelect "reactive path deformation" recsTwo = some "v2" ∧
    specTitleScore "reactive path deformatio" "reactive path deformation" = 1 ∧
    specTitleScore "Reactive Path Deformation" "reactive path deformation" = 2 ∧
    ("v1" : String) ≠ "v2" := by
  exact ⟨by decide, by decide, by decide, by decide, by decide⟩

/-- C4 (amended): for every parsed record sequence, `handle_output`
returns the value of the first record (in response order) whose title is
present and `str_similar` to the local plain title and whose value is
present; it returns `None` when no record qualifies, and also when record
extraction failed. -/
theorem c4_handle_output_first_similar
    (sim : String → String → Bool) (plainTitle : String)
    (rs : List SearchRec) :
    handle_output sim plainTitle none = none ∧
    handle_output sim plainTitle (some rs) = searchLoop sim plainTitle rs ∧
    (∀ v : String, searchLoop sim plainTitle rs = some v ↔
      ∃ i r, rs.get? i = some r ∧ recHit sim plainTitle r = some v ∧
        ∀ j r2, j < i → rs.get? j = some r2 →
          recHit sim plainTitle r2 = none) ∧
    (searchLoop sim plainTitle rs = none ↔
      ∀ i r, rs.get? i = some r → recHit sim plainTitle r = none) :=
  ⟨rfl, rfl, searchLoop_some_iff sim plainTitle rs,
    searchLoop_none_iff sim plainTitle rs⟩

/-- Witness for C4 (amended): at the concrete two-record input, the
returned value `v1` is the value of record 0, and every earlier record
(vacuously) fails the similarity test. -/
theorem c4_witness :
    ∃ i r, recsTwo.get? i = some r ∧
      recHit str_similar "reactive path deformation" r = some "v1" ∧
      ∀ j r2, j < i → recsTwo.get? j = some r2 →
        recHit str_similar "reactive path deformation" r2 = none :=
  ((c4_handle_output_first_similar str_similar "reactive path deformation"
    recsTwo).2.2.1 "v1").mp (by decide)

theorem pySplitAux_ne_nil (sep : List Char) :
    ∀ (fuel : Nat) (s : List Char), pySplitAux sep fuel s ≠ [] := by
  intro fuel s
  cases fuel with
  | zero => simp [pySplitAux]
  | succ n =>
    simp only [pySplitAux]
    cases firstOcc sep s with
    | none => simp
    | some i => simp

theorem isPrefixOf_self_append : ∀ l t : List Char, l.isPrefixOf (l ++ t) = true := by
  intro l
  induction l with
  | nil => intro t; cases t <;> rfl
  | cons a as ih => intro t; simp [List.isPrefixOf, ih]

theorem firstOcc_append_isSome (sep : List Char) (hne : sep ≠ []) :
    ∀ a b, (firstOcc sep (a ++ (sep ++ b))).isSome = true := by
  intro a
  induction a with
  | nil =>
    intro b
    rw [List.nil_append]
    cases sep with
    | nil => exact absurd rfl hne
    | cons c cs =>
      have hp := isPrefixOf_self_append (c :: cs) b
      rw [List.cons_append] at hp
      rw [List.cons_append]
      simp [firstOcc, hp]
  | cons c a2 ih =>
    intro b
    rw [List.cons_append]
    simp only [firstOcc]
    by_cases hp : sep.isPrefixOf (c :: (a2 ++ (sep ++ b))) = true
    · simp [hp]
    · have hi := ih b
      cases ho : firstOcc sep (a2 ++ (sep ++ b)) with
      | none => rw [ho] at hi; cases hi
      | some i => simp [hp, ho]

theorem pySplit_comma_space_len (a b : List Char) :
    2 ≤ (pySplit (',' :: ' ' :: []) (a ++ ',' :: ' ' :: b)).length := by
  have hocc : (firstOcc (',' :: ' ' :: []) (a ++ ',' :: ' ' :: b)).isSome = true := by
    have := firstOcc_append_isSome (',' :: ' ' :: []) (by simp) a b
    simpa using this
  obtain ⟨i, hi⟩ := Option.isSome_iff_exists.mp hocc
  unfold pySplit
  cases hs : (a ++ ',' :: ' ' :: b).length with
  | zero =>
    rw [List.length_append] at hs
    simp at hs
  | succ n =>
    simp only [pySplitAux, hi]
    have hne := pySplitAux_ne_nil (',' :: ' ' :: []) n
      ((a ++ ',' :: ' ' :: b).drop (i + (',' :: ' ' :: []).length))
    have hpos := List.length_pos.mpr hne
    exact Nat.succ_le_succ hpos

theorem finishName_ok (last : List Char) (firsts : List (List Char))
    (h : ¬ (last ∈ jrWords ∧ firsts = [])) :
    ∃ a b, finishName last firsts = Except.ok (a ++ ',' :: ' ' :: b) := by
  by_cases hj : last ∈ jrWords
  · have hf : firsts ≠ [] := fun hf => h ⟨hj, hf⟩
    obtain ⟨popped, hpop⟩ := Option.isSome_iff_exists.mp
      (List.getLast?_isSome.mpr hf)
    refine ⟨(vanLoop firsts.dropLast.length firsts.dropLast popped 0).2,
      pyJoin [' '] (vanLoop firsts.dropLast.length firsts.dropLast popped 0).1, ?_⟩
    simp [finishName, hj, hpop, exc_pure_bind]
  · refine ⟨(vanLoop firsts.length firsts last 0).2,
      pyJoin [' '] (vanLoop firsts.length firsts last 0).1, ?_⟩
    simp [finishName, hj, exc_pure_bind]

theorem getnamesOne_eq_skip (s : List Char) (h : (pyStrip s).length < 1) :
    getnamesOne s = Except.ok none := by
  simp [getnamesOne, h]

theorem getnamesOne_eq_comma (s : List Char) (h1 : ¬ (pyStrip s).length < 1)
    (h2 : ',' ∈ pyStrip s) :
    getnamesOne s = (finishName (pyStrip (pySplitOnce ',' (pyStrip s)).1)
      ((pyWords (pySplitOnce ',' (pyStrip s)).2).map pyStrip)).map some := by
  simp [getnamesOne, h1, h2]

theorem getnamesOne_eq_nocomma (s : List Char)
    (h1 : ¬ (pyStrip s).length < 1) (h2 : ¬ ',' ∈ pyStrip s) :
    getnamesOne s =
      match (pyWords (pyStrip s)).getLast? with
      | none => Except.error PyErr.indexError
      | some last =>
        (finishName last ((pyWords (pyStrip s)).dropLast.map
          (fun w => pyStrip (pyReplaceChar '.' ['.', ' '] w)))).map some := by
  simp [getnamesOne, h1, h2]

theorem getnamesOne_ok (s : List Char) (h : bareJr s = false) :
    ∃ v, getnamesOne s = Except.ok v ∧
      ∀ name, v = some name → ∃ a b, name = a ++ ',' :: ' ' :: b := by
  by_cases h1 : (pyStrip s).length < 1
  · exact ⟨none, getnamesOne_eq_skip s h1, fun name hn => by cases hn⟩
  · by_cases h2 : ',' ∈ pyStrip s
    · have hcond : ¬ (pyStrip (pySplitOnce ',' (pyStrip s)).1 ∈ jrWords ∧
          (pyWords (pySplitOnce ',' (pyStrip s)).2).map pyStrip = []) := by
        rintro ⟨hj, hm⟩
        have hempty : pyWords (pySplitOnce ',' (pyStrip s)).2 = [] :=
          List.map_eq_nil_iff.mp hm
        rw [bareJr] at h
        simp only [if_neg h1, if_pos h2] at h
        rw [hempty] at h
        simp [hj] at h
      obtain ⟨a, b, hfin⟩ := finishName_ok _ _ hcond
      refine ⟨some (a ++ ',' :: ' ' :: b), ?_, ?_⟩
      · rw [getnamesOne_eq_comma s h1 h2, hfin]; rfl
      · intro name hn
        injection hn with hn
        exact ⟨a, b, hn.symm⟩
    · rw [bareJr] at h
      simp only [if_neg h1, if_neg h2] at h
      rw [getnamesOne_eq_nocomma s h1 h2]
      cases hw : pyWords (pyStrip s) with
      | nil => rw [hw] at h; simp at h
      | cons w ws =>
        cases ws with
        | nil =>
          rw [hw] at h
          simp only [decide_eq_false_iff_not] at h
          obtain ⟨a, b, hfin⟩ := finishName_ok w []
            (fun hc => h hc.1)
          refine ⟨some (a ++ ',' :: ' ' :: b), ?_, ?_⟩
          · simp only [List.getLast?_singleton, List.dropLast_single,
              List.map_nil, hfin]
            rfl
          · intro name hn
            injection hn with hn
            exact ⟨a, b, hn.symm⟩
        | cons w2 ws2 =>
          have hnn : (w :: w2 :: ws2) ≠ [] := by simp
          obtain ⟨last, hlast⟩ := Option.isSome_iff_exists.mp
            (List.getLast?_isSome.mpr hnn)
          have hfne : (w :: w2 :: ws2).dropLast.map
              (fun w => pyStrip (pyReplaceChar '.' ['.', ' '] w)) ≠ [] := by
            rw [List.dropLast_cons₂]
            simp
          obtain ⟨a, b, hfin⟩ := finishName_ok last _ (fun hc => hfne hc.2)
          refine ⟨some (a ++ ',' :: ' ' :: b), ?_, ?_⟩
          · rw [hlast]
            show Except.map some (finishName last ((w :: w2 :: ws2).dropLast.map
              (fun w => pyStrip (pyReplaceChar '.' ['.', ' '] w)))) =
                Except.ok (some (a ++ ',' :: ' ' :: b))
            rw [hfin]
            rfl
          · intro name hn
            injection hn with hn
            exact ⟨a, b, hn.symm⟩

theorem getnames_ok : ∀ ns : List (List Char),
    (∀ n ∈ ns, bareJr n = false) →
    ∃ vs, getnames ns = Except.ok vs ∧
      ∀ v ∈ vs, ∃ a b, v = a ++ ',' :: ' ' :: b := by
  intro ns
  induction ns with
  | nil => intro _; exact ⟨[], rfl, fun v hv => by cases hv⟩
  | cons n rest ih =>
    intro h
    obtain ⟨hd, hhd, hshape⟩ := getnamesOne_ok n (h n (List.mem_cons_self n rest))
    obtain ⟨tl, htl, htshape⟩ := ih (fun m hm => h m (List.mem_cons_of_mem n hm))
    cases hd with
    | none =>
      refine ⟨tl, ?_, htshape⟩
      simp [getnames, hhd, htl, exc_pure_bind]
    | some v =>
      refine ⟨v :: tl, ?_, ?_⟩
      · simp [getnames, hhd, htl, exc_pure_bind]
      · intro u hu
        rcases List.mem_cons.mp hu with hu | hu
        · exact hu ▸ hshape v rfl
        · exact htshape u hu

theorem buildAuthors_ok : ∀ vs : List (List Char),
    (∀ v ∈ vs, ∃ a b, v = a ++ ',' :: ' ' :: b) →
    ∃ l, buildAuthors vs = Except.ok l := by
  intro vs
  induction vs with
  | nil => intro _; exact ⟨[], rfl⟩
  | cons v rest ih =>
    intro h
    obtain ⟨a, b, hv⟩ := h v (List.mem_cons_self v rest)
    obtain ⟨tl, htl⟩ := ih (fun u hu => h u (List.mem_cons_of_mem v hu))
    have hlen : 2 ≤ (pySplit (',' :: ' ' :: []) v).length := by
      rw [hv]; exact pySplit_comma_space_len a b
    cases hsp : pySplit (',' :: ' ' :: []) v with
    | nil => rw [hsp] at hlen; simp at hlen
    | cons p1 rest1 =>
      cases rest1 with
      | nil => rw [hsp] at hlen; simp at hlen
      | cons p2 rest2 =>
        refine ⟨Author.mk (String.mk p1) (String.mk p2) :: tl, ?_⟩
        simp [buildAuthors, hsp, listGet, htl, exc_pure_bind]

/-- C8 (counterexample): the author string `"jr"` makes `get_authors`
raise: `getnames` sees a bare junior marker with no first names and pops
from an empty list (`IndexError`), so no `Author` list is returned. -/
theorem c8_counterexample :
    get_authors "jr" = Except.error PyErr.indexError := by
  decide

/-- C8 (amended): for every author-field string in which no
`" and "`-separated name is a bare junior marker (`jnr`, `jr`, `junior`
alone, or with only a comma after it), `get_authors` returns a list of
`Author` records, each holding a last-name string and a first-names
string, without raising an error; on bare junior markers it raises
`IndexError` inside the name normalisation of its bibtexparser
dependency. -/
theorem c8_get_authors_no_error (s : String)
    (h : ∀ piece ∈ (pySplit " and ".data
      (pyReplaceChar '\n' [' '] s.data)).map pyStrip, bareJr piece = false) :
    ∃ l, get_authors s = Except.ok l := by
  obtain ⟨vs, hvs, hshape⟩ := getnames_ok _ h
  obtain ⟨l, hl⟩ := buildAuthors_ok vs hshape
  exact ⟨l, by simp [get_authors, hvs, hl, exc_pure_bind]⟩

/-- Witness for C8 (amended) at a concrete two-author field mixing the
`Last, First` and `First Last` conventions. -/
theorem c8_witness :
    ∃ l, get_authors "Lewis, C. S. and Douglas Adams" = Except.ok l :=
  c8_get_authors_no_error "Lewis, C. S. and Douglas Adams" (by decide)
